import Mathlib

/-!
Shallow embedding of the gocog Cloud-Optimized-GeoTIFF reader
(package `gocog`: `tiff.go`, `geotiff.go`, the COG facade and read API,
and the HTTP range reader) together with proofs settling the frozen
claims about its specification.

Conventions used throughout the embedding:
* Go byte slices are modelled as `List Nat`, each element a byte value
  (`< 256` where it matters, stated as a hypothesis).
* Go `uint64` arithmetic is modelled as `Nat` with explicit reduction
  `% 2^64`; Go integer conversions (`uint64(int32(x))` etc.) are modelled
  by explicit sign-extension functions on `Nat`.
* Go `int` is modelled as `Int`; Go's truncating integer division is
  `Int.tdiv`.
* Go `float64` arithmetic appearing in the overview-selection and region
  logic is modelled exactly over `ℚ` (the source values are small integer
  ratios; exact rationals are the idealised semantics of those float
  expressions).
* Fallible operations return `Except String` mirroring the Go `error`
  returns; the error strings abbreviate the `fmt.Errorf` texts.
-/

namespace Gocog

/-- Byte order selected by the TIFF header magic: `II` = little endian,
`MM` = big endian (field `TIFFReader.byteOrder` / `IFD.ByteOrder`). -/
inductive ByteOrder where
  | le : ByteOrder
  | be : ByteOrder
deriving DecidableEq, Repr

/-- Model of `binary.ByteOrder.Uint16` on a byte list, reading the two
bytes at `off` (missing bytes read as 0, matching a zero-filled buffer). -/
def readUint16 (bo : ByteOrder) (data : List Nat) (off : Nat) : Nat :=
  match bo with
  | .le => data.getD off 0 + 256 * data.getD (off + 1) 0
  | .be => 256 * data.getD off 0 + data.getD (off + 1) 0

/-- Model of `binary.ByteOrder.Uint32` on a byte list. -/
def readUint32 (bo : ByteOrder) (data : List Nat) (off : Nat) : Nat :=
  match bo with
  | .le =>
      data.getD off 0 + 256 * data.getD (off + 1) 0 +
      65536 * data.getD (off + 2) 0 + 16777216 * data.getD (off + 3) 0
  | .be =>
      16777216 * data.getD off 0 + 65536 * data.getD (off + 1) 0 +
      256 * data.getD (off + 2) 0 + data.getD (off + 3) 0

/-- Model of `binary.ByteOrder.Uint64` on a byte list. -/
def readUint64 (bo : ByteOrder) (data : List Nat) (off : Nat) : Nat :=
  match bo with
  | .le => readUint32 .le data off + 4294967296 * readUint32 .le data (off + 4)
  | .be => 4294967296 * readUint32 .be data off + readUint32 .be data (off + 4)

/-- Modulus of Go `uint64` arithmetic. -/
def U64 : Nat := 18446744073709551616

/-- Go conversion `uint64(int8(b))` for a byte `b < 256`: sign-extend
an 8-bit value into the 64-bit unsigned domain. -/
def uint64OfInt8 (b : Nat) : Nat :=
  if b < 128 then b else U64 - 256 + b

/-- Go conversion `uint64(int16(v))` for `v < 2^16`. -/
def uint64OfInt16 (v : Nat) : Nat :=
  if v < 32768 then v else U64 - 65536 + v

/-- Go conversion `uint64(int32(v))` for `v < 2^32`. -/
def uint64OfInt32 (v : Nat) : Nat :=
  if v < 2147483648 then v else U64 - 4294967296 + v

/-- `COG.getBytesPerSample` (`gocog.go`): bytes per sample for each TIFF
data-type code (1=Byte 2=ASCII 3=Short 4=Long 5=Rational 6=SByte
7=Undefined 8=SShort 9=SLong 10=SRational 11=Float 12=Double),
defaulting to 1. -/
def getBytesPerSample (dt : Nat) : Nat :=
  if dt = 1 ∨ dt = 2 ∨ dt = 6 ∨ dt = 7 then 1   -- DTByte, DTASCII, DTSByte, DTUndefined
  else if dt = 3 ∨ dt = 8 then 2                -- DTSShort (u16), DTSShortS (i16)
  else if dt = 4 ∨ dt = 9 ∨ dt = 11 then 4      -- DTSLong (u32), DTSLongS (i32), DTFloat
  else if dt = 5 ∨ dt = 10 ∨ dt = 12 then 8     -- DTRational, DTSRational, DTDouble
  else 1

/-- One iteration of the innermost loop of `COG.decodeBytesToFlat`: decode
the sample whose bytes start at `off`. A sample extending past the end of
`data` is skipped (Go `continue`), leaving the zero the result slice was
allocated with. -/
def decodeSample (data : List Nat) (off : Nat) (dt : Nat) (bo : ByteOrder) : Nat :=
  if data.length < off + getBytesPerSample dt then 0
  else if dt = 1 ∨ dt = 2 ∨ dt = 7 then data.getD off 0  -- byte widened directly
  else if dt = 6 then uint64OfInt8 (data.getD off 0)      -- DTSByte: uint64(int8(b))
  else if dt = 3 then readUint16 bo data off              -- DTSShort (u16)
  else if dt = 8 then uint64OfInt16 (readUint16 bo data off) -- DTSShortS: uint64(int16)
  else if dt = 4 then readUint32 bo data off              -- DTSLong (u32)
  else if dt = 9 then uint64OfInt32 (readUint32 bo data off) -- DTSLongS: uint64(int32)
  else if dt = 11 then readUint32 bo data off             -- DTFloat: raw bit pattern
  else if dt = 12 then readUint64 bo data off             -- DTDouble: raw bit pattern
  else if dt = 5 then                                     -- DTRational: num/den (u32)
    let num := readUint32 bo data off
    let den := readUint32 bo data (off + 4)
    if den ≠ 0 then num / den else 0
  else if dt = 10 then                                    -- DTSRational: the Go source
    -- computes uint64(num) / uint64(den) where num and den are int32: both
    -- operands are sign-EXTENDED into uint64 and then divided UNSIGNED.
    let num := readUint32 bo data off
    let den := readUint32 bo data (off + 4)
    if den ≠ 0 then uint64OfInt32 num / uint64OfInt32 den else 0
  else data.getD off 0                                    -- default case

/-- The triple loop of `COG.decodeBytesToFlat` before the photometric
step: for every `y < height`, `x < width`, `b < bands` (in this order)
decode the sample at byte offset `((y*width+x)*bands + b) * bytesPerSample`
(the Go source writes it as `pixelOffset + b*bytesPerSample` with
`pixelOffset = (y*width+x)*bytesPerPixel`). -/
def decodeBytesToFlatRaw (data : List Nat) (width height bands : Nat)
    (dt : Nat) (bo : ByteOrder) : List Nat :=
  (List.range height).flatMap fun y =>
    (List.range width).flatMap fun x =>
      (List.range bands).map fun b =>
        decodeSample data (((y * width + x) * bands + b) * getBytesPerSample dt) dt bo

/-- Maximum value used by the WhiteIsZero inversion in
`COG.decodeBytesToFlat` (255 / 127 / 65535 / 32767 / 2^32-1 / 2^31-1 per
data type, default 255). -/
def maxValueForInversion (dt : Nat) : Nat :=
  if dt = 1 ∨ dt = 2 ∨ dt = 7 then 255   -- DTByte, DTASCII, DTUndefined
  else if dt = 6 then 127                -- DTSByte
  else if dt = 3 then 65535              -- DTSShort
  else if dt = 8 then 32767              -- DTSShortS
  else if dt = 4 then 4294967295         -- DTSLong
  else if dt = 9 then 2147483647         -- DTSLongS
  else 255

/-- `COG.decodeBytesToFlat`: decode raw bytes into a flat `u64` BIP buffer,
then, when the photometric interpretation is 0 (WhiteIsZero) and there is a
single band, replace every value `v` by the Go `uint64` difference
`maxValue - v` (wrapping, hence `(max + 2^64 - v) % 2^64`). -/
def decodeBytesToFlat (data : List Nat) (width height bands : Nat)
    (dt : Nat) (bo : ByteOrder) (photometricInterpretation : Nat) : List Nat :=
  let result := decodeBytesToFlatRaw data width height bands dt bo
  if photometricInterpretation = 0 ∧ bands = 1 then
    result.map fun v => (maxValueForInversion dt + (U64 - v)) % U64
  else
    result

/-- `RasterData`: flat band-interleaved-by-pixel pixel buffer. The
dimension fields are Go `int`s holding non-negative sizes. -/
structure RasterData where
  data : List Nat
  width : Nat
  height : Nat
  bands : Nat
deriving DecidableEq, Repr

/-- `RasterData.At`: bounds-checked accessor returning 0 for any
out-of-range band/x/y and otherwise the BIP element
`Data[y*Width*Bands + x*Bands + band]`. -/
def RasterData.At (r : RasterData) (band x y : Int) : Nat :=
  if band < 0 ∨ band ≥ (r.bands : Int) ∨ x < 0 ∨ x ≥ (r.width : Int) ∨
      y < 0 ∨ y ≥ (r.height : Int) then 0
  else r.data.getD (y * r.width * r.bands + x * r.bands + band).toNat 0

/-- Bytes of the buffer are below 256. -/
def ByteValued (data : List Nat) : Prop := ∀ b ∈ data, b < 256

/-! Embedding of the `CompressionLZW` branch of `COG.decompressTile`. -/

/-- Model of the `case CompressionLZW` branch of `COG.decompressTile`.
The TIFF LZW bit-stream decoders come from the external library
`golang.org/x/image/tiff/lzw` and are abstracted as the oracle parameters
`lsb` and `msb` (`none` exactly when the Go `io.ReadAll` of the
corresponding reader surfaces an error). The source checks
`len(data) == expectedSize` and returns the input unchanged BEFORE
attempting any decompression; only then does it try LSB-first and, on
error, MSB-first; on success it requires at least `expectedSize` bytes
and trims to exactly that size; after both orders fail it re-checks the
(now unreachable) size equality and otherwise fails. -/
def decompressTileLZW (lsb msb : List Nat → Option (List Nat))
    (data : List Nat) (tileWidth tileHeight bands : Nat) (dt : Nat) :
    Except String (List Nat) :=
  let bytesPerPixel := bands * getBytesPerSample dt
  let expectedSize := tileWidth * tileHeight * bytesPerPixel
  if data.length = expectedSize then .ok data
  else
    match lsb data with
    | some decompressed =>
        if decompressed.length < expectedSize then
          .error "LZW decompression produced insufficient data"
        else .ok (decompressed.take expectedSize)
    | none =>
        match msb data with
        | some decompressed =>
            if decompressed.length < expectedSize then
              .error "LZW decompression produced insufficient data"
            else .ok (decompressed.take expectedSize)
        | none =>
            if data.length = expectedSize then .ok data
            else .error "failed to decompress LZW tile"

/-- The LZW branch as claim C1 states it: LSB-first decompression is
attempted first, MSB-first on error, and the raw input is returned
unchanged only when BOTH have failed and the compressed length equals the
expected size. -/
def decompressTileLZWClaimed (lsb msb : List Nat → Option (List Nat))
    (data : List Nat) (tileWidth tileHeight bands : Nat) (dt : Nat) :
    Except String (List Nat) :=
  let expectedSize := tileWidth * tileHeight * (bands * getBytesPerSample dt)
  match lsb data with
  | some decompressed =>
      if decompressed.length < expectedSize then
        .error "LZW decompression produced insufficient data"
      else .ok (decompressed.take expectedSize)
  | none =>
      match msb data with
      | some decompressed =>
          if decompressed.length < expectedSize then
            .error "LZW decompression produced insufficient data"
          else .ok (decompressed.take expectedSize)
      | none =>
          if data.length = expectedSize then .ok data
          else .error "failed to decompress LZW tile"

/-! Embedding of `HTTPRangeReader.Seek` (read-ahead variant). -/

/-- State of an `HTTPRangeReader`: total size (-1 when the HTTP backend
reported none), current position, read-ahead window `[bufferStart,
bufferEnd)` and whether a buffer has been allocated (`buffer != nil`). -/
structure HTTPRangeReader where
  size : Int
  pos : Int
  bufferStart : Int
  bufferEnd : Int
  hasBuffer : Bool
deriving DecidableEq, Repr

/-- Final part of `HTTPRangeReader.Seek` shared by all `whence` branches:
reject a negative position, invalidate the read-ahead window when the new
position falls outside it (only when a buffer exists), and store the new
position. -/
def HTTPRangeReader.seekFinish (rr : HTTPRangeReader) (newPos : Int) :
    Except String (Int × HTTPRangeReader) :=
  if newPos < 0 then .error "negative position"
  else if rr.hasBuffer ∧ (newPos < rr.bufferStart ∨ newPos ≥ rr.bufferEnd) then
    .ok (newPos, { rr with bufferStart := -1, bufferEnd := -1, pos := newPos })
  else .ok (newPos, { rr with pos := newPos })

/-- `HTTPRangeReader.Seek` with the `io` package whence constants
(SeekStart = 0, SeekCurrent = 1, SeekEnd = 2). -/
def HTTPRangeReader.Seek (rr : HTTPRangeReader) (offset : Int) (whence : Nat) :
    Except String (Int × HTTPRangeReader) :=
  match whence with
  | 0 => rr.seekFinish offset
  | 1 => rr.seekFinish (rr.pos + offset)
  | 2 =>
      if rr.size < 0 then .error "cannot seek from end: file size unknown"
      else rr.seekFinish (rr.size + offset)
  | _ => .error "invalid whence"

/-- Absolute position a seek resolves to, per whence. -/
def HTTPRangeReader.seekTarget (rr : HTTPRangeReader) (offset : Int) (whence : Nat) : Int :=
  match whence with
  | 0 => offset
  | 1 => rr.pos + offset
  | 2 => rr.size + offset
  | _ => 0

/-! Embedding of `COG.selectOverview` and its metadata inputs. -/

/-- `Rectangle`: a window in main-image pixel coordinates (Go `int`s). -/
structure Rectangle where
  x : Int
  y : Int
  width : Int
  height : Int
deriving DecidableEq, Repr

/-- A tie point of tag ModelTiepoint (`TiePoint` in `geotiff.go`). -/
structure TiePoint where
  pixelX : ℚ
  pixelY : ℚ
  pixelZ : ℚ
  geoX : ℚ
  geoY : ℚ
  geoZ : ℚ
deriving DecidableEq, Repr

/-- `GeoTIFFMetadata` (`geotiff.go`), restricted to the fields the
embedded operations read. Float fields are carried as exact rationals. -/
structure GeoTIFFMetadata where
  width : Int
  height : Int
  bandCount : Nat
  dataType : Nat
  photometricInterpretation : Nat
  crs : String
  pixelScale0 : ℚ
  pixelScale1 : ℚ
  pixelScale2 : ℚ
  tiePoints : List TiePoint
  transformation : List ℚ
deriving DecidableEq, Repr

/-- Ceiling of a rational as an integer (`math.Ceil` followed by `int(...)`
on an exact value). `Rat.den` is positive, so the Euclidean `/` on `Int`
is floor division and `(num + den - 1) / den` is the ceiling. -/
def ratCeil (q : ℚ) : Int := (q.num + q.den - 1) / (q.den : Int)

/-- Body of the `selectOverview` loop: estimated data transfer (bytes) for
serving a rectWidth x rectHeight main-image window from the overview with
metadata `m` (scale the window to the overview, take ceilings, multiply by
bytes per pixel). -/
def overviewDataTransfer (main m : GeoTIFFMetadata) (rectWidth rectHeight : Int) : ℚ :=
  let scaleX : ℚ := (m.width : ℚ) / (main.width : ℚ)
  let scaleY : ℚ := (m.height : ℚ) / (main.height : ℚ)
  let overviewWidth : Int := ratCeil ((rectWidth : ℚ) * scaleX)
  let overviewHeight : Int := ratCeil ((rectHeight : ℚ) * scaleY)
  ((overviewWidth * overviewHeight *
    ((getBytesPerSample m.dataType * m.bandCount : Nat) : Int) : Int) : ℚ)

/-- Pixel-area ratio of an overview to the main image (`resolutionRatio`
in `selectOverview`). -/
def resolutionRatio (main m : GeoTIFFMetadata) : ℚ :=
  ((m.width * m.height : Int) : ℚ) / ((main.width * main.height : Int) : ℚ)

/-- The scan of `selectOverview` over the IFD metadata list: `i` is the
index of the head of the remaining list, `best`/`minDT` the best index and
its data transfer so far (`none` is the initial `math.MaxFloat64`). An
overview replaces the best only when its transfer is strictly smaller AND
its resolution ratio is at least 1/4 (index 0 always passes). -/
def selectOverviewLoop (main : GeoTIFFMetadata) (rectWidth rectHeight : Int) :
    List GeoTIFFMetadata → Nat → Nat → Option ℚ → Nat
  | [], _, best, _ => best
  | m :: rest, i, best, minDT =>
      let dataTransfer := overviewDataTransfer main m rectWidth rectHeight
      let better : Bool :=
        match minDT with
        | none => true
        | some mc => decide (dataTransfer < mc)
      if better then
        if (1 : ℚ) / 4 ≤ resolutionRatio main m ∨ i = 0 then
          selectOverviewLoop main rectWidth rectHeight rest (i + 1) i (some dataTransfer)
        else
          selectOverviewLoop main rectWidth rectHeight rest (i + 1) best minDT
      else
        selectOverviewLoop main rectWidth rectHeight rest (i + 1) best minDT

/-- `COG.selectOverview`: pick the IFD index to serve a main-image pixel
window from. Tiny windows (area below the truncated `mainArea/100`) use
the main image; otherwise the scan above minimizes data transfer subject
to the quarter-resolution floor. -/
def selectOverview (metadata : List GeoTIFFMetadata) (rect : Rectangle) : Nat :=
  match metadata with
  | [] => 0
  | main :: _ =>
      let windowArea := rect.width * rect.height
      let mainArea := main.width * main.height
      if windowArea < Int.tdiv mainArea 100 then 0
      else selectOverviewLoop main rect.width rect.height metadata 0 0 none

/-- Eligibility of IFD index `j` in the claim's sense: pixel-area ratio at
least 1/4, or the main image itself. -/
def eligibleOverview (metas : List GeoTIFFMetadata) (main : GeoTIFFMetadata)
    (j : Nat) : Prop :=
  (1 : ℚ) / 4 ≤ resolutionRatio main (metas.getD j main) ∨ j = 0

/-- Data-transfer cost of serving the window from IFD index `j`. -/
def overviewCostAt (metas : List GeoTIFFMetadata) (main : GeoTIFFMetadata)
    (rectWidth rectHeight : Int) (j : Nat) : ℚ :=
  overviewDataTransfer main (metas.getD j main) rectWidth rectHeight

/-! Embedding of the TIFF directory parser (`tiff.go`). -/

/-- Go conversion `int16(v)` for `v < 2^16`. -/
def int16OfUint (v : Nat) : Int :=
  if v < 32768 then (v : Int) else (v : Int) - 65536

/-- Go conversion `int32(v)` for `v < 2^32`. -/
def int32OfUint (v : Nat) : Int :=
  if v < 2147483648 then (v : Int) else (v : Int) - 4294967296

/-- Decoded TIFF tag values (the dynamic `interface{}` stored in
`Tag.Value`): one constructor per Go shape the reader produces. Floating
point values are carried as their raw bit patterns (the reader obtains
them via `math.Float32frombits` / `Float64frombits` and no embedded
operation computes with them). -/
inductive TagValue where
  | u8 (v : Nat)
  | u8s (vs : List Nat)
  | u16 (v : Nat)
  | u16s (vs : List Nat)
  | u32 (v : Nat)
  | u32s (vs : List Nat)
  | i16 (v : Int)
  | i16s (vs : List Int)
  | i32 (v : Int)
  | i32s (vs : List Int)
  | f32bits (v : Nat)
  | f32bitsList (vs : List Nat)
  | f64bits (v : Nat)
  | f64bitsList (vs : List Nat)
  | rat (num den : Nat)
  | rats (vs : List (Nat × Nat))
  | srat (num den : Int)
  | srats (vs : List (Int × Int))
  | str (bytes : List Nat)
deriving DecidableEq, Repr

/-- `Tag` (`tiff.go`): a 12-byte IFD entry plus the lazily resolved value.
`typ` is the TIFF data-type code (field `Type`). -/
structure Tag where
  id : Nat
  typ : Nat
  count : Nat
  offset : Nat
  value : Option TagValue
  isOffset : Bool
deriving DecidableEq, Repr

/-- `Tag.getTypeSize`: byte size of one element of the tag's type. -/
def Tag.getTypeSize (t : Tag) : Nat :=
  if t.typ = 1 ∨ t.typ = 2 ∨ t.typ = 6 ∨ t.typ = 7 then 1
  else if t.typ = 3 ∨ t.typ = 8 then 2
  else if t.typ = 4 ∨ t.typ = 9 ∨ t.typ = 11 then 4
  else if t.typ = 5 ∨ t.typ = 10 ∨ t.typ = 12 then 8
  else 1

/-- Byte size of a tag's whole value. The Go source multiplies two
`uint32`s, hence the reduction modulo 2^32. -/
def Tag.valueSize (t : Tag) : Nat := t.getTypeSize * t.count % 4294967296

/-- `TIFFReader.readInlineValue`: decode a value stored inline in the
4-byte offset slot. Go truncating conversions (`uint8(tag.Offset)` etc.)
become explicit `%`. The default arm returns the raw offset (a `uint32`). -/
def readInlineValue (t : Tag) : TagValue :=
  if t.typ = 1 then                     -- DTByte
    if t.count = 1 then .u8 (t.offset % 256) else .u8s [t.offset % 256]
  else if t.typ = 3 then                -- DTSShort (u16)
    if t.count = 1 then .u16 (t.offset % 65536) else .u16s [t.offset % 65536]
  else if t.typ = 4 then                -- DTSLong (u32)
    if t.count = 1 then .u32 t.offset else .u32s [t.offset]
  else if t.typ = 8 then                -- DTSShortS (i16)
    if t.count = 1 then .i16 (int16OfUint (t.offset % 65536))
    else .i16s [int16OfUint (t.offset % 65536)]
  else if t.typ = 9 then                -- DTSLongS (i32)
    if t.count = 1 then .i32 (int32OfUint t.offset) else .i32s [int32OfUint t.offset]
  else .u32 t.offset

/-- Shared value decode of `readValueFromBuffer` / `readValueAtOffset` on
a byte segment that starts at the value's first byte: arrays of `count`
elements, a scalar when `count = 1`, ASCII with the trailing NUL dropped,
`none` for the type codes both functions leave to their `default: nil`
arm. -/
def decodeTagValueFromBytes (seg : List Nat) (typ count : Nat)
    (bo : ByteOrder) : Option TagValue :=
  if typ = 1 then                       -- DTByte
    if count = 1 then some (.u8 (seg.getD 0 0))
    else some (.u8s ((List.range count).map fun i => seg.getD i 0))
  else if typ = 3 then                  -- DTSShort
    if count = 1 then some (.u16 (readUint16 bo seg 0))
    else some (.u16s ((List.range count).map fun i => readUint16 bo seg (2 * i)))
  else if typ = 4 then                  -- DTSLong
    if count = 1 then some (.u32 (readUint32 bo seg 0))
    else some (.u32s ((List.range count).map fun i => readUint32 bo seg (4 * i)))
  else if typ = 8 then                  -- DTSShortS
    if count = 1 then some (.i16 (int16OfUint (readUint16 bo seg 0)))
    else some (.i16s ((List.range count).map fun i => int16OfUint (readUint16 bo seg (2 * i))))
  else if typ = 9 then                  -- DTSLongS
    if count = 1 then some (.i32 (int32OfUint (readUint32 bo seg 0)))
    else some (.i32s ((List.range count).map fun i => int32OfUint (readUint32 bo seg (4 * i))))
  else if typ = 11 then                 -- DTFloat (bit patterns)
    if count = 1 then some (.f32bits (readUint32 bo seg 0))
    else some (.f32bitsList ((List.range count).map fun i => readUint32 bo seg (4 * i)))
  else if typ = 12 then                 -- DTDouble (bit patterns)
    if count = 1 then some (.f64bits (readUint64 bo seg 0))
    else some (.f64bitsList ((List.range count).map fun i => readUint64 bo seg (8 * i)))
  else if typ = 5 then                  -- DTRational
    if count = 1 then some (.rat (readUint32 bo seg 0) (readUint32 bo seg 4))
    else some (.rats ((List.range count).map fun i =>
      (readUint32 bo seg (8 * i), readUint32 bo seg (8 * i + 4))))
  else if typ = 10 then                 -- DTSRational
    if count = 1 then
      some (.srat (int32OfUint (readUint32 bo seg 0)) (int32OfUint (readUint32 bo seg 4)))
    else some (.srats ((List.range count).map fun i =>
      (int32OfUint (readUint32 bo seg (8 * i)), int32OfUint (readUint32 bo seg (8 * i + 4)))))
  else if typ = 2 then                  -- DTASCII, trailing NUL dropped
    let bytes := (List.range count).map fun i => seg.getD i 0
    if bytes ≠ [] ∧ bytes.getLast? = some 0 then some (.str bytes.dropLast)
    else some (.str bytes)
  else none                             -- default: nil

/-- `TIFFReader.readValueAtOffset`: decode a tag value by seeking to
`tag.Offset`. When the value extends past the end of the stream,
`binary.Read` fails and the pre-allocated zero slices are kept, modelled
by decoding a zero segment. -/
def readValueAtOffset (file : List Nat) (bo : ByteOrder) (t : Tag) : Option TagValue :=
  let seg :=
    if t.offset + t.valueSize ≤ file.length then (file.drop t.offset).take t.valueSize
    else List.replicate t.valueSize 0
  decodeTagValueFromBytes seg t.typ t.count bo

/-- Large-array tag ids deferred by every resolution mode:
StripOffsets 273, StripByteCounts 279, TileOffsets 324, TileByteCounts 325. -/
def isLargeArrayTag (id : Nat) : Prop :=
  id = 273 ∨ id = 279 ∨ id = 324 ∨ id = 325

instance (id : Nat) : Decidable (isLargeArrayTag id) := by
  unfold isLargeArrayTag
  infer_instance

/-- Per-tag step of `TIFFReader.readTagValuesMetadataOnly`: the four
large-array tags are only marked deferred; an inline value is decoded from
the offset slot; a value inside the single 16 KiB window read at the IFD
offset is decoded from that window; anything else is marked deferred. -/
def resolveTagMetadataOnly (file : List Nat) (bo : ByteOrder) (ifdOffset : Nat)
    (t : Tag) : Tag :=
  if isLargeArrayTag t.id then { t with isOffset := true }
  else if t.valueSize ≤ 4 then { t with value := some (readInlineValue t), isOffset := false }
  else
    let window := (file.drop ifdOffset).take 16384
    if ifdOffset ≤ t.offset ∧ t.offset + t.valueSize ≤ ifdOffset + window.length then
      { t with
        value := decodeTagValueFromBytes (window.drop (t.offset - ifdOffset)) t.typ t.count bo,
        isOffset := false }
    else { t with isOffset := true }

/-- Per-tag step of `TIFFReader.readTagValuesWithFilter` with
`skipLargeArrays = true` (the full mode used by `NewTIFFReader`): the four
large-array tags are only marked deferred; otherwise the value is read
immediately, inline or by seeking (the Go code sets `IsOffset = true`
before an at-offset read). -/
def resolveTagFull (file : List Nat) (bo : ByteOrder) (t : Tag) : Tag :=
  if isLargeArrayTag t.id then { t with isOffset := true }
  else if t.valueSize ≤ 4 then { t with value := some (readInlineValue t), isOffset := false }
  else { t with value := readValueAtOffset file bo t, isOffset := true }

/-- `TIFFReader.ReadTagValue`: on-demand materialization of one tag. A tag
whose value is already present is returned untouched; otherwise the value
is decoded inline or at its offset (`IsOffset` is left unchanged by the
at-offset arm, as in the source). -/
def ReadTagValue (file : List Nat) (bo : ByteOrder) (t : Tag) : Tag :=
  if t.value ≠ none then t
  else if t.valueSize ≤ 4 then { t with value := some (readInlineValue t), isOffset := false }
  else { t with value := readValueAtOffset file bo t }

/-- The lazy-load guard of `COG.readTiledRegion` / `readStrippedRegion`:
`ReadTagValue` is invoked for an offsets/byte-counts tag exactly when its
value is still nil and it is marked deferred. -/
def lazyLoadTag (file : List Nat) (bo : ByteOrder) (t : Tag) : Tag :=
  if t.value = none ∧ t.isOffset then ReadTagValue file bo t else t

/-- `IFD` (`tiff.go`): parsed directory. The Go `Tags` field is a map
keyed by tag id (later duplicates win, iteration order immaterial: every
resolution step is per-tag); the embedding keeps the tags in entry order. -/
structure IFD where
  tags : List Tag
  nextIFD : Nat
  byteOrder : ByteOrder
deriving DecidableEq, Repr

/-- `TIFFReader.readTagFromBuffer`: one 12-byte IFD entry at absolute
position `pos` (id, type, count, offset slot; value nil). -/
def readTagHeaderAt (file : List Nat) (bo : ByteOrder) (pos : Nat) : Tag :=
  { id := readUint16 bo file pos
    typ := readUint16 bo file (pos + 2)
    count := readUint32 bo file (pos + 4)
    offset := readUint32 bo file (pos + 8)
    value := none
    isOffset := false }

/-- `TIFFReader.readIFDWithFilter`: read the 2-byte tag count, the
`count*12 + 4`-byte directory body in one request, parse the entries and
the trailing next-IFD offset, then resolve tag values in the requested
mode. Value resolution is total for an in-memory stream (its only Go
error paths are seek failures); the structural reads fail at end of
stream as `io.ReadFull` does. -/
def readIFDWithFilter (file : List Nat) (bo : ByteOrder) (metadataOnly : Bool)
    (offset : Nat) : Except String IFD :=
  -- tagCount = readUint16 bo file offset; ifdSize = 2 + tagCount*12 + 4
  if file.length < offset + 2 then .error "failed to read tag count"
  else if file.length < offset + 2 + (readUint16 bo file offset * 12 + 4) then
    .error "failed to read IFD structure"
  else
    let tagCount := readUint16 bo file offset
    let tags := (List.range tagCount).map fun i => readTagHeaderAt file bo (offset + 2 + 12 * i)
    let nextIFD := readUint32 bo file (offset + 2 + tagCount * 12)
    let resolved :=
      if metadataOnly then tags.map (resolveTagMetadataOnly file bo offset)
      else tags.map (resolveTagFull file bo)
    .ok { tags := resolved, nextIFD := nextIFD, byteOrder := bo }

/-- `TIFFReader.readIFDsWithFilter`: walk the next-IFD chain until offset
0. The Go loop does not terminate on a cyclic chain; `fuel` bounds the
walk and exhausting it is reported as an error. -/
def readIFDsWithFilter (file : List Nat) (bo : ByteOrder) (metadataOnly : Bool) :
    Nat → Nat → Except String (List IFD)
  | 0, offset => if offset = 0 then .ok [] else .error "IFD chain too long"
  | fuel + 1, offset =>
      if offset = 0 then .ok []
      else
        match readIFDWithFilter file bo metadataOnly offset with
        | .error e => .error e
        | .ok ifd =>
            match readIFDsWithFilter file bo metadataOnly fuel ifd.nextIFD with
            | .error e => .error e
            | .ok rest => .ok (ifd :: rest)

/-- Magic and version checks of `NewTIFFReaderWithFilter` after the
8-byte header read: the byte order is selected by the magic, the
following 16-bit word read in that order must be 42, and the IFD walk
starts at the 32-bit offset that follows. -/
def tiffAfterMagic (file : List Nat) (metadataOnly : Bool) (fuel : Nat)
    (bo : ByteOrder) : Except String (ByteOrder × List IFD) :=
  if readUint16 bo file 2 ≠ 42 then .error "invalid TIFF version"
  else
    match readIFDsWithFilter file bo metadataOnly fuel (readUint32 bo file 4) with
    | .error e => .error e
    | .ok ifds => .ok (bo, ifds)

/-- `NewTIFFReaderWithFilter`: read the 8-byte header (failing on a
shorter stream), select the byte order from the first two bytes
(`II` = 0x4949 little endian, `MM` = 0x4D4D big endian, read as a
little-endian u16 as in the source - both magics are palindromes), and
parse all IFDs. -/
def NewTIFFReaderWithFilter (file : List Nat) (metadataOnly : Bool)
    (fuel : Nat) : Except String (ByteOrder × List IFD) :=
  if file.length < 8 then .error "failed to read TIFF header"
  else if readUint16 .le file 0 = 18761 then tiffAfterMagic file metadataOnly fuel .le
  else if readUint16 .le file 0 = 19789 then tiffAfterMagic file metadataOnly fuel .be
  else .error "invalid TIFF magic"

/-! Embedding of `COG.ReadTile` (CRS validation prefix) and
`COG.ReadRegion` (`gocog.go` and `geotiff.go`, exact-rational rendering
of the float geometry). -/

/-- Geographic bounding box (`orb.Bound`, min/max corner points). -/
structure Bound where
  minX : ℚ
  minY : ℚ
  maxX : ℚ
  maxY : ℚ
deriving DecidableEq, Repr

/-- `pixelBounds` (`gocog.go`): pixel-coordinate bounds. -/
structure PixelBounds where
  minX : ℚ
  minY : ℚ
  maxX : ℚ
  maxY : ℚ
deriving DecidableEq, Repr

/-- `GeoTIFFReader.hasTransformation`: some entry of the 4 x 4
transformation matrix is non-zero. -/
def hasTransformation (m : GeoTIFFMetadata) : Bool :=
  m.transformation.any fun t => decide (t ≠ 0)

/-- `GeoTIFFReader.transformPixel`: affine transform by matrix entries
0, 1, 3 (x row) and 4, 5, 7 (y row). -/
def transformPixel (m : GeoTIFFMetadata) (px py : ℚ) : ℚ × ℚ :=
  (m.transformation.getD 0 0 * px + m.transformation.getD 1 0 * py + m.transformation.getD 3 0,
   m.transformation.getD 4 0 * px + m.transformation.getD 5 0 * py + m.transformation.getD 7 0)

/-- `GeoTIFFReader.pixelToGeo`: transformation matrix when present, else
first tiepoint plus pixel scale (y inverted), else the origin. -/
def pixelToGeo (m : GeoTIFFMetadata) (px py : ℚ) : ℚ × ℚ :=
  if hasTransformation m then transformPixel m px py
  else
    match m.tiePoints with
    | tp :: _ =>
        if m.pixelScale0 ≠ 0 then
          (tp.geoX + (px - tp.pixelX) * m.pixelScale0,
           tp.geoY - (py - tp.pixelY) * m.pixelScale1)
        else (0, 0)
    | [] => (0, 0)

/-- `GeoTIFFReader.Bounds`: axis-aligned envelope of the four transformed
image corners (the zero bound when a dimension is zero). -/
def BoundsOf (m : GeoTIFFMetadata) : Bound :=
  if m.width = 0 ∨ m.height = 0 then ⟨0, 0, 0, 0⟩
  else
    let tl := pixelToGeo m 0 0
    let tr := pixelToGeo m (m.width : ℚ) 0
    let bl := pixelToGeo m 0 (m.height : ℚ)
    let br := pixelToGeo m (m.width : ℚ) (m.height : ℚ)
    ⟨min (min tl.1 tr.1) (min bl.1 br.1), min (min tl.2 tr.2) (min bl.2 br.2),
     max (max tl.1 tr.1) (max bl.1 br.1), max (max tl.2 tr.2) (max bl.2 br.2)⟩

/-- `COG.geoToPixelBounds`: normalize a geographic bound into pixel
coordinates of the image (y inverted); the zero bounds when the image has
no geographic extent. -/
def geoToPixelBounds (bound : Bound) (m : GeoTIFFMetadata) : PixelBounds :=
  let imgBounds := BoundsOf m
  let geoWidth := imgBounds.maxX - imgBounds.minX
  let geoHeight := imgBounds.maxY - imgBounds.minY
  if geoWidth = 0 ∨ geoHeight = 0 then ⟨0, 0, 0, 0⟩
  else
    ⟨(bound.minX - imgBounds.minX) / geoWidth * (m.width : ℚ),
     (imgBounds.maxY - bound.maxY) / geoHeight * (m.height : ℚ),
     (bound.maxX - imgBounds.minX) / geoWidth * (m.width : ℚ),
     (imgBounds.maxY - bound.minY) / geoHeight * (m.height : ℚ)⟩

/-- Go conversion `int(x)` of a non-negative float: truncation toward
zero, `Int.tdiv` on the exact rational. -/
def ratToIntTrunc (q : ℚ) : Int := Int.tdiv q.num (q.den : Int)

/-- All-zero metadata record (stands for the never-taken default of a
bounds-checked Go slice index). -/
def dummyGeoTIFFMetadata : GeoTIFFMetadata := ⟨0, 0, 0, 0, 0, "", 0, 0, 0, [], []⟩

/-- Body of `COG.ReadRegion` once the overview index has been validated,
for the metadata of that overview: clamp the pixel bounds to the image,
fail on an empty region, read the pixel bytes (`readPixelRegion`,
abstracted as an oracle on x, y, width, height), look up the IFD byte
order, decode to the flat buffer and attach the requested bound. -/
def readRegionCore (meta : GeoTIFFMetadata)
    (readPixelRegion : Int → Int → Int → Int → Except String (List Nat))
    (ifdOrder : Option ByteOrder) (bound : Bound) : Except String (RasterData × Bound) :=
  let pb := geoToPixelBounds bound meta
  let minX := max 0 (min (((meta.width - 1 : Int) : ℚ)) pb.minX)
  let maxX := max 0 (min (((meta.width - 1 : Int) : ℚ)) pb.maxX)
  let minY := max 0 (min (((meta.height - 1 : Int) : ℚ)) pb.minY)
  let maxY := max 0 (min (((meta.height - 1 : Int) : ℚ)) pb.maxY)
  let width : Int := ratCeil (maxX - minX)
  let height : Int := ratCeil (maxY - minY)
  if width ≤ 0 ∨ height ≤ 0 then .error "invalid region dimensions"
  else
    match readPixelRegion (ratToIntTrunc minX) (ratToIntTrunc minY) width height with
    | .error e => .error e
    | .ok data =>
        match ifdOrder with
        | none => .error "IFD not found"
        | some bo =>
            .ok ({ data := decodeBytesToFlat data width.toNat height.toNat
                     meta.bandCount meta.dataType bo meta.photometricInterpretation,
                   width := width.toNat, height := height.toNat,
                   bands := meta.bandCount }, bound)

/-- `COG.ReadRegion`: overview 0 is the main image; an out-of-range
overview index fails; otherwise the core body runs on that overview's
metadata. `readPixelRegion` and `ifdByteOrder` abstract the tile/strip
engine and `TIFFReader.GetIFD` per IFD index. -/
def ReadRegion (metas : List GeoTIFFMetadata)
    (readPixelRegion : Nat → Int → Int → Int → Int → Except String (List Nat))
    (ifdByteOrder : Nat → Option ByteOrder)
    (bound : Bound) (overview : Int) : Except String (RasterData × Bound) :=
  if metas.length = 0 then .error "no image data available"
  else if overview < 0 ∨ overview ≥ (metas.length : Int) then .error "invalid overview level"
  else
    readRegionCore (metas.getD overview.toNat dummyGeoTIFFMetadata)
      (readPixelRegion overview.toNat) (ifdByteOrder overview.toNat) bound

/-- Prefix of `COG.ReadTile` up to and including the CRS validation: the
empty-handle check, the tile-size defaulting, and the CRS guard. The
remainder of the function (map-tile bounds, the WGS84 to Web-Mercator
conversion through `log`/`tan`, pixel read and resampling) involves
transcendental float operations with no exact rational rendering and is
abstracted as the continuation `rest`, applied to the computed tile size;
the guard returning before `rest` is what the claim is about. -/
def ReadTile (geoCount : Nat) (crs : String) (tileSize : List Int)
    (rest : Int → Except String (RasterData × Bound)) : Except String (RasterData × Bound) :=
  if geoCount = 0 then .error "no image data available"
  else
    let size : Int :=
      if tileSize.length > 0 ∧ tileSize.getD 0 0 > 0 then tileSize.getD 0 0 else 256
    if crs ≠ "EPSG:4326" ∧ crs ≠ "EPSG:3857" then .error "unsupported CRS"
    else rest size

/-! From here on: the theorems settling the claims, with their supporting lemmas and witnesses. -/

/-! Basic lemmas about the flat decoder. -/

/-- Flattening a rectangular nested iteration into a single range. -/
theorem flatMap_range_map {α : Type} (n m : Nat) (g : Nat → α) :
    (List.range n).flatMap (fun i => (List.range m).map fun j => g (i * m + j)) =
      (List.range (n * m)).map g := by
  induction n with
  | zero => simp
  | succ k ih =>
      rw [List.range_succ, List.flatMap_append, ih, Nat.succ_mul, List.range_add,
        List.map_append, List.map_map]
      simp only [List.flatMap_cons, List.flatMap_nil, List.append_nil]
      rfl

/-- The nested decode loops write, in order, the samples at byte offsets
`i * bytesPerSample` for `i < width*height*bands`. -/
theorem decodeBytesToFlatRaw_eq_map (data : List Nat) (w h bands : Nat)
    (dt : Nat) (bo : ByteOrder) :
    decodeBytesToFlatRaw data w h bands dt bo =
      (List.range (w * h * bands)).map
        (fun i => decodeSample data (i * getBytesPerSample dt) dt bo) := by
  unfold decodeBytesToFlatRaw
  have inner : ∀ y : Nat,
      ((List.range w).flatMap fun x => (List.range bands).map fun b =>
        decodeSample data (((y * w + x) * bands + b) * getBytesPerSample dt) dt bo) =
      (List.range (w * bands)).map fun j =>
        decodeSample data ((y * (w * bands) + j) * getBytesPerSample dt) dt bo := by
    intro y
    rw [← flatMap_range_map w bands (fun j =>
      decodeSample data ((y * (w * bands) + j) * getBytesPerSample dt) dt bo)]
    congr 1
    funext x
    congr 1
    funext b
    congr 2
    ring
  rw [funext inner, flatMap_range_map h (w * bands) (fun i =>
    decodeSample data (i * getBytesPerSample dt) dt bo),
    show h * (w * bands) = w * h * bands by ring]

theorem decodeBytesToFlatRaw_length (data : List Nat) (w h bands : Nat)
    (dt : Nat) (bo : ByteOrder) :
    (decodeBytesToFlatRaw data w h bands dt bo).length = w * h * bands := by
  rw [decodeBytesToFlatRaw_eq_map]; simp

theorem decodeBytesToFlat_length (data : List Nat) (w h bands : Nat)
    (dt : Nat) (bo : ByteOrder) (pi : Nat) :
    (decodeBytesToFlat data w h bands dt bo pi).length = w * h * bands := by
  unfold decodeBytesToFlat
  split <;> simp [decodeBytesToFlatRaw_length]

theorem getD_append_left {l l' : List Nat} {k : Nat} (h : k < l.length) :
    (l ++ l')[k]? = l[k]? :=
  List.getElem?_append_left h

theorem readUint16_append (bo : ByteOrder) (B X : List Nat) (off : Nat)
    (h : off + 2 ≤ B.length) :
    readUint16 bo (B ++ X) off = readUint16 bo B off := by
  cases bo <;>
    simp [readUint16, getD_append_left (show off < B.length by omega),
      getD_append_left (show off + 1 < B.length by omega)]

theorem readUint32_append (bo : ByteOrder) (B X : List Nat) (off : Nat)
    (h : off + 4 ≤ B.length) :
    readUint32 bo (B ++ X) off = readUint32 bo B off := by
  cases bo <;>
    simp [readUint32, getD_append_left (show off < B.length by omega),
      getD_append_left (show off + 1 < B.length by omega),
      getD_append_left (show off + 2 < B.length by omega),
      getD_append_left (show off + 3 < B.length by omega)]

theorem readUint64_append (bo : ByteOrder) (B X : List Nat) (off : Nat)
    (h : off + 8 ≤ B.length) :
    readUint64 bo (B ++ X) off = readUint64 bo B off := by
  cases bo <;>
    simp [readUint64, readUint32_append _ _ _ _ (show off + 4 ≤ B.length by omega),
      readUint32_append _ _ _ ((off : Nat) + 4) (show off + 4 + 4 ≤ B.length by omega)]

/-- Appending extra bytes does not change a sample that lies entirely
within the original buffer. -/
theorem decodeSample_append (B X : List Nat) (off : Nat) (dt : Nat) (bo : ByteOrder)
    (h : off + getBytesPerSample dt ≤ B.length) :
    decodeSample (B ++ X) off dt bo = decodeSample B off dt bo := by
  have hbps : 1 ≤ getBytesPerSample dt := by
    unfold getBytesPerSample; split_ifs <;> omega
  have hlen : ¬ (B ++ X).length < off + getBytesPerSample dt := by
    simp only [List.length_append]; omega
  have hlenB : ¬ B.length < off + getBytesPerSample dt := by omega
  unfold decodeSample
  rw [if_neg hlen, if_neg hlenB]
  by_cases h127 : dt = 1 ∨ dt = 2 ∨ dt = 7
  · have : getBytesPerSample dt = 1 := by unfold getBytesPerSample; rw [if_pos]; tauto
    simp [h127, getD_append_left (show off < B.length by omega)]
  rw [if_neg h127, if_neg h127]
  by_cases h6 : dt = 6
  · have : getBytesPerSample dt = 1 := by subst h6; rfl
    simp [h6, getD_append_left (show off < B.length by omega)]
  rw [if_neg h6, if_neg h6]
  by_cases h3 : dt = 3
  · have : getBytesPerSample dt = 2 := by subst h3; rfl
    simp [h3, readUint16_append bo B X off (by omega)]
  rw [if_neg h3, if_neg h3]
  by_cases h8 : dt = 8
  · have : getBytesPerSample dt = 2 := by subst h8; rfl
    simp [h8, readUint16_append bo B X off (by omega)]
  rw [if_neg h8, if_neg h8]
  by_cases h4 : dt = 4
  · have : getBytesPerSample dt = 4 := by subst h4; rfl
    simp [h4, readUint32_append bo B X off (by omega)]
  rw [if_neg h4, if_neg h4]
  by_cases h9 : dt = 9
  · have : getBytesPerSample dt = 4 := by subst h9; rfl
    simp [h9, readUint32_append bo B X off (by omega)]
  rw [if_neg h9, if_neg h9]
  by_cases h11 : dt = 11
  · have : getBytesPerSample dt = 4 := by subst h11; rfl
    simp [h11, readUint32_append bo B X off (by omega)]
  rw [if_neg h11, if_neg h11]
  by_cases h12 : dt = 12
  · have : getBytesPerSample dt = 8 := by subst h12; rfl
    simp [h12, readUint64_append bo B X off (by omega)]
  rw [if_neg h12, if_neg h12]
  by_cases h5 : dt = 5
  · have : getBytesPerSample dt = 8 := by subst h5; rfl
    simp [h5, readUint32_append bo B X off (by omega),
      readUint32_append bo B X (off + 4) (by omega)]
  rw [if_neg h5, if_neg h5]
  by_cases h10 : dt = 10
  · have : getBytesPerSample dt = 8 := by subst h10; rfl
    simp [h10, readUint32_append bo B X off (by omega),
      readUint32_append bo B X (off + 4) (by omega)]
  rw [if_neg h10, if_neg h10]
  simp [getD_append_left (show off < B.length by omega)]

theorem getD_le_255 {data : List Nat} (hbytes : ByteValued data) (k : Nat) :
    data.getD k 0 ≤ 255 := by
  rcases Nat.lt_or_ge k data.length with hk | hk
  · rw [List.getD_eq_getElem data 0 hk]
    have := hbytes data[k] (List.getElem_mem hk)
    omega
  · rw [List.getD_eq_default data 0 hk]
    omega

/-- For the unsigned types byte / u16 / u32 a decoded sample of a
byte-valued buffer is at most the WhiteIsZero maximum for that type. -/
theorem decodeSample_le_max (data : List Nat) (off dt : Nat) (bo : ByteOrder)
    (hbytes : ByteValued data) (hdt : dt = 1 ∨ dt = 3 ∨ dt = 4) :
    decodeSample data off dt bo ≤ maxValueForInversion dt := by
  have h0 := getD_le_255 hbytes off
  have h1 := getD_le_255 hbytes (off + 1)
  have h2 := getD_le_255 hbytes (off + 2)
  have h3 := getD_le_255 hbytes (off + 3)
  simp only [List.getD_eq_getElem?_getD] at h0 h1 h2 h3
  rcases hdt with h | h | h <;> subst h <;>
    simp only [decodeSample, maxValueForInversion] <;>
    cases bo <;>
    simp only [readUint16, readUint32] <;>
    norm_num <;>
    split <;> omega

theorem maxValueForInversion_lt_U64 (dt : Nat) : maxValueForInversion dt < U64 := by
  unfold maxValueForInversion U64
  split_ifs <;> omega

/-! Claim C10: bounds-checked pixel access. -/

/-- C10: for every RasterData `r` whose flat buffer has the BIP size
`width*height*bands` and all integers `band`, `x`, `y`: `r.At band x y`
returns 0 whenever any coordinate is out of range; otherwise the BIP index
`y*Width*Bands + x*Bands + band` is strictly below the buffer length
(so the access never indexes out of range) and the returned value is the
buffer element at that index. -/
theorem C10_rasterdata_at (r : RasterData) (band x y : Int)
    (hlen : r.data.length = r.width * r.height * r.bands) :
    (¬ (0 ≤ band ∧ band < (r.bands : Int) ∧ 0 ≤ x ∧ x < (r.width : Int) ∧
        0 ≤ y ∧ y < (r.height : Int)) → r.At band x y = 0) ∧
    ((0 ≤ band ∧ band < (r.bands : Int) ∧ 0 ≤ x ∧ x < (r.width : Int) ∧
        0 ≤ y ∧ y < (r.height : Int)) →
      (y * r.width * r.bands + x * r.bands + band).toNat < r.data.length ∧
      r.At band x y = r.data.getD (y * r.width * r.bands + x * r.bands + band).toNat 0) := by
  constructor
  · intro hout
    unfold RasterData.At
    rw [if_pos (by omega)]
  · intro hin
    obtain ⟨hb0, hb1, hx0, hx1, hy0, hy1⟩ := hin
    have hB0 : (0 : Int) ≤ r.bands := by positivity
    have hW0 : (0 : Int) ≤ r.width := by positivity
    have hidx0 : 0 ≤ y * r.width * r.bands + x * r.bands + band := by positivity
    have hlt : y * r.width * r.bands + x * r.bands + band <
        (r.width : Int) * r.height * r.bands := by
      have s1 : x * r.bands + band + 1 ≤ (x + 1) * (r.bands : Int) := by nlinarith
      have s2 : (x + 1) * (r.bands : Int) ≤ (r.width : Int) * r.bands := by nlinarith
      have s3 : y * ((r.width : Int) * r.bands) + (r.width : Int) * r.bands ≤
          (r.height : Int) * ((r.width : Int) * r.bands) := by nlinarith
      nlinarith
    constructor
    · have : y * r.width * r.bands + x * r.bands + band < (r.data.length : Int) := by
        rw [hlen]; push_cast; linarith
      omega
    · unfold RasterData.At
      rw [if_neg (by omega)]

/-- C10 witness: a 3 x 2 single-band raster accessed in-bounds at
band 0, x = 1, y = 1. -/
theorem C10_witness :
    (⟨[1, 2, 3, 4, 5, 6], 3, 2, 1⟩ : RasterData).At 0 1 1 =
      ([1, 2, 3, 4, 5, 6] : List Nat).getD
        (((1 : Int) * (3 : Nat) * (1 : Nat) + 1 * (1 : Nat) + 0).toNat) 0 :=
  ((C10_rasterdata_at ⟨[1, 2, 3, 4, 5, 6], 3, 2, 1⟩ 0 1 1 (by decide)).2
    (by norm_num)).2

/-! Claim C3: rational and signed-rational sample decoding. -/

/-- C3: the Go source comments the signed-rational branch as computing
the quotient `num / den` of two `int32` values, but the implementation
evaluates `uint64(num) / uint64(den)`: both operands are sign-extended to
`uint64` first and the division is unsigned. For the single signed-rational
sample with numerator -6 (bytes FA FF FF FF little-endian) and denominator
3, the code produces `(2^64 - 6) / 3 = 6148914691236517203`, not the
sign-respecting quotient `-6 / 3 = -2` (which as a `u64` bit pattern is
`2^64 - 2`). -/
theorem C3_srational_negative_eval :
    decodeBytesToFlat [250, 255, 255, 255, 3, 0, 0, 0] 1 1 1 10 ByteOrder.le 1 =
      [6148914691236517203] ∧
    (6148914691236517203 : Nat) ≠ U64 - 2 := by
  constructor
  · decide
  · decide

/-! Claim C6: WhiteIsZero photometric inversion. -/

/-- C6: with photometric interpretation 0 and a single band, every decoded
value `v` is replaced by the (wrapping `uint64`) difference
`max_for_type - v`, where the maximum is 255 / 127 / 65535 / 32767 /
2^32-1 / 2^31-1 for byte / sbyte / u16 / i16 / u32 / i32; for the unsigned
types the difference is an exact natural subtraction; any other
photometric value or band count passes the raw decoded values through
unchanged; and a single-band byte image with photometric 0 and raw pixel
value 10 decodes to 245. -/
theorem C6_whitem_is_zero_inversion :
    (∀ (data : List Nat) (w h dt : Nat) (bo : ByteOrder),
      (dt = 1 ∨ dt = 6 ∨ dt = 3 ∨ dt = 8 ∨ dt = 4 ∨ dt = 9) →
      decodeBytesToFlat data w h 1 dt bo 0 =
        (decodeBytesToFlatRaw data w h 1 dt bo).map
          (fun v => (maxValueForInversion dt + (U64 - v)) % U64)) ∧
    (maxValueForInversion 1 = 255 ∧ maxValueForInversion 6 = 127 ∧
     maxValueForInversion 3 = 65535 ∧ maxValueForInversion 8 = 32767 ∧
     maxValueForInversion 4 = 4294967295 ∧ maxValueForInversion 9 = 2147483647) ∧
    (∀ (data : List Nat) (w h bands dt : Nat) (bo : ByteOrder) (pi : Nat),
      ¬ (pi = 0 ∧ bands = 1) →
      decodeBytesToFlat data w h bands dt bo pi =
        decodeBytesToFlatRaw data w h bands dt bo) ∧
    (∀ (data : List Nat) (w h dt : Nat) (bo : ByteOrder) (i : Nat),
      ByteValued data → (dt = 1 ∨ dt = 3 ∨ dt = 4) → i < w * h →
      (decodeBytesToFlat data w h 1 dt bo 0).getD i 0 =
        maxValueForInversion dt -
          (decodeBytesToFlatRaw data w h 1 dt bo).getD i 0) ∧
    decodeBytesToFlat [10] 1 1 1 1 ByteOrder.le 0 = [245] := by
  refine ⟨?_, by norm_num [maxValueForInversion], ?_, ?_, by decide⟩
  · intro data w h dt bo _
    unfold decodeBytesToFlat
    rw [if_pos ⟨rfl, rfl⟩]
  · intro data w h bands dt bo pi hno
    unfold decodeBytesToFlat
    rw [if_neg hno]
  · intro data w h dt bo i hbytes hdt hi
    have hiN : i < w * h * 1 := by omega
    unfold decodeBytesToFlat
    rw [if_pos ⟨rfl, rfl⟩]
    have hraw : i < (decodeBytesToFlatRaw data w h 1 dt bo).length := by
      rw [decodeBytesToFlatRaw_length]; omega
    rw [List.getD_eq_getElem _ _ (by simpa using hraw),
      List.getD_eq_getElem _ _ hraw, List.getElem_map]
    have hle : (decodeBytesToFlatRaw data w h 1 dt bo)[i] ≤ maxValueForInversion dt := by
      rw [List.getElem_of_eq (decodeBytesToFlatRaw_eq_map data w h 1 dt bo) hraw]
      simp only [List.getElem_map, List.getElem_range]
      exact decodeSample_le_max data _ dt bo hbytes hdt
    have hmax := maxValueForInversion_lt_U64 dt
    set v := (decodeBytesToFlatRaw data w h 1 dt bo)[i]
    have : maxValueForInversion dt + (U64 - v) = U64 + (maxValueForInversion dt - v) := by
      omega
    rw [this, Nat.add_mod_left, Nat.mod_eq_of_lt (by omega)]

/-- C6 witness: photometric inversion of a concrete 1 x 1 u16 buffer. -/
theorem C6_witness :
    decodeBytesToFlat [5, 0] 1 1 1 3 ByteOrder.le 0 =
      (decodeBytesToFlatRaw [5, 0] 1 1 1 3 ByteOrder.le).map
        (fun v => (maxValueForInversion 3 + (U64 - v)) % U64) :=
  C6_whitem_is_zero_inversion.1 [5, 0] 1 1 3 ByteOrder.le (by norm_num)

/-! Claim C8: decoder output size and prefix stability. -/

/-- C8 counterexample: the claim's prefix property fails for a buffer
shorter than the pixel grid: decoding the empty buffer as a 1 x 1 byte
image yields `[0]` (the out-of-range sample is skipped), while after
appending the byte 7 the same sample decodes to `[7]`. -/
theorem C8_counterexample :
    ¬ ((decodeBytesToFlat (([] : List Nat) ++ [7]) 1 1 1 1 ByteOrder.le 1).take
        (1 * 1 * 1) = decodeBytesToFlat ([] : List Nat) 1 1 1 1 ByteOrder.le 1) := by
  decide

/-- C8 (amended): `decodeBytesToFlat` always returns exactly
`width*height*bands` values; and whenever the buffer `B` contains at least
the `width*height*bands*bytesPerSample` bytes the decoder consumes, the
first `width*height*bands` values decoded from `B ++ X` equal the decode
of `B`. -/
theorem C8_decoder_linearity :
    (∀ (data : List Nat) (w h bands dt : Nat) (bo : ByteOrder) (pi : Nat),
      (decodeBytesToFlat data w h bands dt bo pi).length = w * h * bands) ∧
    (∀ (B X : List Nat) (w h bands dt : Nat) (bo : ByteOrder) (pi : Nat),
      w * h * bands * getBytesPerSample dt ≤ B.length →
      (decodeBytesToFlat (B ++ X) w h bands dt bo pi).take (w * h * bands) =
        decodeBytesToFlat B w h bands dt bo pi) := by
  refine ⟨fun data w h bands dt bo pi => decodeBytesToFlat_length .., ?_⟩
  intro B X w h bands dt bo pi hB
  have key : decodeBytesToFlatRaw (B ++ X) w h bands dt bo =
      decodeBytesToFlatRaw B w h bands dt bo := by
    rw [decodeBytesToFlatRaw_eq_map, decodeBytesToFlatRaw_eq_map]
    apply List.map_congr_left
    intro i hi
    rw [List.mem_range] at hi
    apply decodeSample_append
    calc i * getBytesPerSample dt + getBytesPerSample dt
        = (i + 1) * getBytesPerSample dt := by ring
      _ ≤ w * h * bands * getBytesPerSample dt := Nat.mul_le_mul_right _ (by omega)
      _ ≤ B.length := hB
  have hfull : ∀ (l : List Nat), l.length = w * h * bands → l.take (w * h * bands) = l :=
    fun l hl => List.take_of_length_le (le_of_eq hl)
  unfold decodeBytesToFlat
  rw [key]
  split
  · exact hfull _ (by simp [decodeBytesToFlatRaw_length])
  · exact hfull _ (decodeBytesToFlatRaw_length ..)

/-- C8 witness: prefix stability on a concrete two-byte buffer with one
extension byte. -/
theorem C8_witness :
    2 * 1 * 1 * getBytesPerSample 1 ≤ ([1, 2] : List Nat).length ∧
    (decodeBytesToFlat (([1, 2] : List Nat) ++ [9]) 2 1 1 1 ByteOrder.le 1).take
        (2 * 1 * 1) = decodeBytesToFlat [1, 2] 2 1 1 1 ByteOrder.le 1 :=
  ⟨by decide, C8_decoder_linearity.2 [1, 2] [9] 2 1 1 1 ByteOrder.le 1 (by decide)⟩

/-- C1 counterexample: a 2-byte input for an expected size of 2 bytes
(1 x 2 tile, 1 band, byte samples) on which LSB-first decompression would
succeed with output `[9, 9, 9]`. The code returns the input unchanged
without attempting decompression, while the claimed behaviour returns the
trimmed decompression output `[9, 9]`. -/
theorem C1_lzw_counterexample :
    decompressTileLZW (fun _ => some [9, 9, 9]) (fun _ => none) [1, 2] 1 2 1 1 ≠
      decompressTileLZWClaimed (fun _ => some [9, 9, 9]) (fun _ => none) [1, 2] 1 2 1 1 := by
  intro h
  have h1 : decompressTileLZW (fun _ => some [9, 9, 9]) (fun _ => none) [1, 2] 1 2 1 1 =
      .ok [1, 2] := rfl
  have h2 : decompressTileLZWClaimed (fun _ => some [9, 9, 9]) (fun _ => none) [1, 2] 1 2 1 1 =
      .ok [9, 9] := rfl
  rw [h1, h2] at h
  exact absurd (Except.ok.inj h) (by decide)

/-- C1 (amended): when the compressed length already equals the expected
size `tileW*tileH*bands*bytesPerSample` the input bytes are returned
unchanged without attempting decompression; otherwise LSB-first is tried
and MSB-first on error, a successful decompression fails when it yields
fewer than the expected bytes and is otherwise trimmed to exactly the
expected size, and the call fails when both bit orders fail. -/
theorem C1_lzw_amended (lsb msb : List Nat → Option (List Nat))
    (data : List Nat) (tw th bands dt : Nat) :
    (data.length = tw * th * (bands * getBytesPerSample dt) →
      decompressTileLZW lsb msb data tw th bands dt = .ok data) ∧
    (data.length ≠ tw * th * (bands * getBytesPerSample dt) →
      ∀ d, lsb data = some d →
      decompressTileLZW lsb msb data tw th bands dt =
        if d.length < tw * th * (bands * getBytesPerSample dt) then
          .error "LZW decompression produced insufficient data"
        else .ok (d.take (tw * th * (bands * getBytesPerSample dt)))) ∧
    (data.length ≠ tw * th * (bands * getBytesPerSample dt) →
      lsb data = none → ∀ d, msb data = some d →
      decompressTileLZW lsb msb data tw th bands dt =
        if d.length < tw * th * (bands * getBytesPerSample dt) then
          .error "LZW decompression produced insufficient data"
        else .ok (d.take (tw * th * (bands * getBytesPerSample dt)))) ∧
    (data.length ≠ tw * th * (bands * getBytesPerSample dt) →
      lsb data = none → msb data = none →
      decompressTileLZW lsb msb data tw th bands dt =
        .error "failed to decompress LZW tile") := by
  refine ⟨?_, ?_, ?_, ?_⟩
  · intro he
    simp [decompressTileLZW, he]
  · intro hne d hd
    simp [decompressTileLZW, hne, hd]
  · intro hne hl d hd
    simp [decompressTileLZW, hne, hl, hd]
  · intro hne hl hm
    simp [decompressTileLZW, hne, hl, hm]

/-- C1 witness: both bit orders failing on a 1-byte input with expected
size 2 produces the decompression failure. -/
theorem C1_witness :
    decompressTileLZW (fun _ => none) (fun _ => none) [1] 1 2 1 1 =
      .error "failed to decompress LZW tile" :=
  (C1_lzw_amended (fun _ => none) (fun _ => none) [1] 1 2 1 1).2.2.2
    (by decide) rfl rfl

/-- C9: `Seek` succeeds exactly when the whence is one of Start/Current/End,
it is not a seek from the end with unknown size, and the resolved absolute
position is non-negative; on success it returns the resolved position (with
no end-of-file restriction), stores it, leaves size and buffer allocation
unchanged, preserves the read-ahead window when the position lands inside
`[bufferStart, bufferEnd)` and invalidates it (resets both bounds to -1) when a
buffer exists and the position lands outside. -/
theorem seekFinish_ok_iff (rr : HTTPRangeReader) (newPos : Int) :
    (∃ p rr', rr.seekFinish newPos = .ok (p, rr')) ↔ 0 ≤ newPos := by
  unfold HTTPRangeReader.seekFinish
  split_ifs with h1 h2
  · simp; omega
  · simp; omega
  · simp; omega

theorem seekFinish_ok_spec (rr : HTTPRangeReader) (newPos : Int) (p : Int)
    (rr' : HTTPRangeReader) (hok : rr.seekFinish newPos = .ok (p, rr')) :
    p = newPos ∧ rr'.pos = p ∧ rr'.size = rr.size ∧ rr'.hasBuffer = rr.hasBuffer ∧
    (rr.hasBuffer = true →
      ((rr.bufferStart ≤ p ∧ p < rr.bufferEnd) →
        rr'.bufferStart = rr.bufferStart ∧ rr'.bufferEnd = rr.bufferEnd) ∧
      ((p < rr.bufferStart ∨ rr.bufferEnd ≤ p) →
        rr'.bufferStart = -1 ∧ rr'.bufferEnd = -1)) := by
  unfold HTTPRangeReader.seekFinish at hok
  split_ifs at hok with h1 h2
  · obtain ⟨hbuf2, hwin⟩ := h2
    have hpair := Except.ok.inj hok
    have hp : newPos = p := congrArg Prod.fst hpair
    have hr : { rr with bufferStart := -1, bufferEnd := -1, pos := newPos } = rr' :=
      congrArg Prod.snd hpair
    subst hp
    subst hr
    exact ⟨rfl, rfl, rfl, rfl,
      fun _ => ⟨fun hin => absurd hin (by omega), fun _ => ⟨rfl, rfl⟩⟩⟩
  · have hpair := Except.ok.inj hok
    have hp : newPos = p := congrArg Prod.fst hpair
    have hr : { rr with pos := newPos } = rr' := congrArg Prod.snd hpair
    subst hp
    subst hr
    exact ⟨rfl, rfl, rfl, rfl,
      fun hbuf => ⟨fun _ => ⟨rfl, rfl⟩, fun hout => absurd ⟨hbuf, by omega⟩ h2⟩⟩

theorem C9_seek (rr : HTTPRangeReader) (offset : Int) (whence : Nat) :
    ((∃ p rr', rr.Seek offset whence = .ok (p, rr')) ↔
      ((whence = 0 ∧ 0 ≤ offset) ∨
       (whence = 1 ∧ 0 ≤ rr.pos + offset) ∨
       (whence = 2 ∧ 0 ≤ rr.size ∧ 0 ≤ rr.size + offset))) ∧
    (∀ p rr', rr.Seek offset whence = .ok (p, rr') →
      p = rr.seekTarget offset whence ∧
      rr'.pos = p ∧ rr'.size = rr.size ∧ rr'.hasBuffer = rr.hasBuffer ∧
      (rr.hasBuffer = true →
        ((rr.bufferStart ≤ p ∧ p < rr.bufferEnd) →
          rr'.bufferStart = rr.bufferStart ∧ rr'.bufferEnd = rr.bufferEnd) ∧
        ((p < rr.bufferStart ∨ rr.bufferEnd ≤ p) →
          rr'.bufferStart = -1 ∧ rr'.bufferEnd = -1))) := by
  rcases whence with _ | _ | _ | w
  · have hred : rr.Seek offset 0 = rr.seekFinish offset := rfl
    rw [hred]
    refine ⟨?_, fun p rr' hok => ?_⟩
    · rw [seekFinish_ok_iff]
      constructor
      · intro h; exact Or.inl ⟨rfl, h⟩
      · intro h
        rcases h with h | h | h
        · exact h.2
        · exact absurd h.1 (by omega)
        · exact absurd h.1 (by omega)
    · have := seekFinish_ok_spec rr offset p rr' hok
      exact ⟨this.1, this.2⟩
  · have hred : rr.Seek offset 1 = rr.seekFinish (rr.pos + offset) := rfl
    rw [hred]
    refine ⟨?_, fun p rr' hok => ?_⟩
    · rw [seekFinish_ok_iff]
      constructor
      · intro h; exact Or.inr (Or.inl ⟨rfl, h⟩)
      · intro h
        rcases h with h | h | h
        · exact absurd h.1 (by omega)
        · exact h.2
        · exact absurd h.1 (by omega)
    · have := seekFinish_ok_spec rr (rr.pos + offset) p rr' hok
      exact ⟨this.1, this.2⟩
  · have hred : rr.Seek offset 2 =
        if rr.size < 0 then .error "cannot seek from end: file size unknown"
        else rr.seekFinish (rr.size + offset) := rfl
    rw [hred]
    split_ifs with hsz
    · refine ⟨?_, fun p rr' hok => absurd hok (by simp)⟩
      constructor
      · rintro ⟨p, rr', h⟩; exact absurd h (by simp)
      · intro h
        rcases h with h | h | h
        · exact h.1.elim
        · exact absurd h.1 (by omega)
        · exact absurd h.2.1 (by omega)
    · refine ⟨?_, fun p rr' hok => ?_⟩
      · rw [seekFinish_ok_iff]
        constructor
        · intro h
          refine Or.inr (Or.inr ⟨rfl, ?_, h⟩)
          omega
        · intro h
          rcases h with h | h | h
          · exact h.1.elim
          · exact absurd h.1 (by omega)
          · exact h.2.2
      · have := seekFinish_ok_spec rr (rr.size + offset) p rr' hok
        exact ⟨this.1, this.2⟩
  · have hred : rr.Seek offset (w + 3) = .error "invalid whence" := rfl
    rw [hred]
    refine ⟨?_, fun p rr' hok => absurd hok (by simp)⟩
    constructor
    · rintro ⟨p, rr', h⟩; exact absurd h (by simp)
    · intro h
      rcases h with h | h | h <;> exact absurd h.1 (by omega)

/-- C9 witness: a Start seek to position 5 on a buffer-less reader of
size 100 succeeds with the expected state. -/
theorem C9_witness :
    (5 : Int) = HTTPRangeReader.seekTarget ⟨100, 0, -1, -1, false⟩ 5 0 ∧
    (⟨100, 5, -1, -1, false⟩ : HTTPRangeReader).pos = 5 ∧
    (⟨100, 5, -1, -1, false⟩ : HTTPRangeReader).size =
      (⟨100, 0, -1, -1, false⟩ : HTTPRangeReader).size ∧
    (⟨100, 5, -1, -1, false⟩ : HTTPRangeReader).hasBuffer =
      (⟨100, 0, -1, -1, false⟩ : HTTPRangeReader).hasBuffer ∧
    ((⟨100, 0, -1, -1, false⟩ : HTTPRangeReader).hasBuffer = true →
      (((⟨100, 0, -1, -1, false⟩ : HTTPRangeReader).bufferStart ≤ 5 ∧
        (5 : Int) < (⟨100, 0, -1, -1, false⟩ : HTTPRangeReader).bufferEnd) →
        (⟨100, 5, -1, -1, false⟩ : HTTPRangeReader).bufferStart =
          (⟨100, 0, -1, -1, false⟩ : HTTPRangeReader).bufferStart ∧
        (⟨100, 5, -1, -1, false⟩ : HTTPRangeReader).bufferEnd =
          (⟨100, 0, -1, -1, false⟩ : HTTPRangeReader).bufferEnd) ∧
      (((5 : Int) < (⟨100, 0, -1, -1, false⟩ : HTTPRangeReader).bufferStart ∨
        (⟨100, 0, -1, -1, false⟩ : HTTPRangeReader).bufferEnd ≤ 5) →
        (⟨100, 5, -1, -1, false⟩ : HTTPRangeReader).bufferStart = -1 ∧
        (⟨100, 5, -1, -1, false⟩ : HTTPRangeReader).bufferEnd = -1)) :=
  (C9_seek ⟨100, 0, -1, -1, false⟩ 5 0).2 5 ⟨100, 5, -1, -1, false⟩ rfl

/-- Invariant-carrying specification of the `selectOverview` scan: starting
from an eligible best of known minimal cost among the indices already seen,
the scan returns an eligible index of minimal cost among all indices. -/
theorem selectOverviewLoop_spec (main : GeoTIFFMetadata) (rw rh : Int)
    (full : List GeoTIFFMetadata) :
    ∀ (rest : List GeoTIFFMetadata) (i best : Nat) (mc : ℚ),
      full.drop i = rest → best < i → i ≤ full.length →
      eligibleOverview full main best →
      overviewCostAt full main rw rh best = mc →
      (∀ j, j < i → eligibleOverview full main j →
        mc ≤ overviewCostAt full main rw rh j) →
      selectOverviewLoop main rw rh rest i best (some mc) < full.length ∧
      eligibleOverview full main (selectOverviewLoop main rw rh rest i best (some mc)) ∧
      (∀ j, j < full.length → eligibleOverview full main j →
        overviewCostAt full main rw rh (selectOverviewLoop main rw rh rest i best (some mc)) ≤
          overviewCostAt full main rw rh j) := by
  intro rest
  induction rest with
  | nil =>
      intro i best mc hdrop hbest hi helig hcost hmin
      have hlen : full.length ≤ i := by
        by_contra hcon
        push_neg at hcon
        have := List.drop_eq_nil_iff.mp hdrop
        omega
      have hieq : i = full.length := le_antisymm hi hlen
      unfold selectOverviewLoop
      exact ⟨by omega, helig, fun j hj he => hcost ▸ hmin j (by omega) he⟩
  | cons m rest' ih =>
      intro i best mc hdrop hbest hi helig hcost hmin
      have hm0 : full[i]? = some m := by
        have := List.getElem?_drop full i 0
        rw [hdrop] at this
        simpa using this.symm
      have hilt : i < full.length := by
        by_contra hcon
        push_neg at hcon
        rw [List.getElem?_eq_none (by omega)] at hm0
        exact Option.noConfusion hm0
      have hmD : full.getD i main = m := by
        simp [List.getD_eq_getElem?_getD, hm0]
      have hdrop' : full.drop (i + 1) = rest' := by
        have h1 : List.drop 1 (List.drop i full) = List.drop (i + 1) full := by
          rw [List.drop_drop]
        rw [hdrop] at h1
        simpa using h1.symm
      have hcostI : overviewCostAt full main rw rh i =
          overviewDataTransfer main m rw rh := by
        unfold overviewCostAt
        rw [hmD]
      have heligI : eligibleOverview full main i ↔
          ((1 : ℚ) / 4 ≤ resolutionRatio main m ∨ i = 0) := by
        unfold eligibleOverview
        rw [hmD]
      rw [selectOverviewLoop]
      by_cases hlt : overviewDataTransfer main m rw rh < mc
      · rw [if_pos (by simp [hlt])]
        by_cases hel : (1 : ℚ) / 4 ≤ resolutionRatio main m ∨ i = 0
        · rw [if_pos hel]
          exact ih (i + 1) i (overviewDataTransfer main m rw rh) hdrop' (by omega)
            (by omega) (heligI.mpr hel) hcostI
            (fun j hj he => by
              rcases Nat.lt_or_ge j i with hji | hji
              · have := hmin j hji he
                calc overviewDataTransfer main m rw rh ≤ mc := le_of_lt hlt
                  _ ≤ overviewCostAt full main rw rh j := this
              · have hji' : j = i := by omega
                rw [hji', hcostI])
        · rw [if_neg hel]
          exact ih (i + 1) best mc hdrop' (by omega) (by omega) helig hcost
            (fun j hj he => by
              rcases Nat.lt_or_ge j i with hji | hji
              · exact hmin j hji he
              · have hji' : j = i := by omega
                exact absurd (hji' ▸ (heligI.mp (hji' ▸ he))) hel)
      · rw [if_neg (by simp [hlt])]
        exact ih (i + 1) best mc hdrop' (by omega) (by omega) helig hcost
          (fun j hj he => by
            rcases Nat.lt_or_ge j i with hji | hji
            · exact hmin j hji he
            · have hji' : j = i := by omega
              rw [hji', hcostI]
              exact le_of_not_lt hlt)

/-- C2: for a valid window rectangle (positive, inside the main image),
`selectOverview` returns index 0 whenever the window area is below the
(truncated) hundredth of the main-image area; otherwise it returns an
in-range IFD index that is eligible (pixel-area ratio to the main image at
least 1/4, index 0 always eligible) and whose data-transfer cost
`scaledW * scaledH * bytesPerSample * bands` is minimal among all eligible
IFD indices. -/
theorem C2_select_overview (main : GeoTIFFMetadata) (rest : List GeoTIFFMetadata)
    (rect : Rectangle) (_hW : 0 < main.width) (_hH : 0 < main.height)
    (_hrw : 0 < rect.width) (_hrh : 0 < rect.height)
    (_hrwle : rect.width ≤ main.width) (_hrhle : rect.height ≤ main.height) :
    (rect.width * rect.height < Int.tdiv (main.width * main.height) 100 →
      selectOverview (main :: rest) rect = 0) ∧
    (¬ rect.width * rect.height < Int.tdiv (main.width * main.height) 100 →
      selectOverview (main :: rest) rect < (main :: rest).length ∧
      eligibleOverview (main :: rest) main (selectOverview (main :: rest) rect) ∧
      (∀ j, j < (main :: rest).length → eligibleOverview (main :: rest) main j →
        overviewCostAt (main :: rest) main rect.width rect.height
            (selectOverview (main :: rest) rect) ≤
          overviewCostAt (main :: rest) main rect.width rect.height j)) := by
  have hunfold : selectOverview (main :: rest) rect =
      if rect.width * rect.height < Int.tdiv (main.width * main.height) 100 then 0
      else selectOverviewLoop main rect.width rect.height (main :: rest) 0 0 none := rfl
  constructor
  · intro hlt
    rw [hunfold, if_pos hlt]
  · intro hge
    rw [hunfold, if_neg hge]
    have hstep : selectOverviewLoop main rect.width rect.height (main :: rest) 0 0 none =
        selectOverviewLoop main rect.width rect.height rest 1 0
          (some (overviewDataTransfer main main rect.width rect.height)) := by
      rw [selectOverviewLoop]
      simp
    rw [hstep]
    exact selectOverviewLoop_spec main rect.width rect.height (main :: rest) rest 1 0
      (overviewDataTransfer main main rect.width rect.height) rfl (by omega)
      (by simp) (Or.inr rfl) rfl
      (fun j hj _ => by
        have hj0 : j = 0 := by omega
        subst hj0
        exact le_of_eq rfl)

/-- C2 witness: a 50 x 50 window on a 100 x 100 single-IFD image takes the
minimality branch and returns an in-range index. -/
theorem C2_witness :
    selectOverview [(⟨100, 100, 1, 1, 2, "", 1, 1, 1, [], []⟩ : GeoTIFFMetadata)]
        ⟨0, 0, 50, 50⟩ < 1 :=
  ((C2_select_overview ⟨100, 100, 1, 1, 2, "", 1, 1, 1, [], []⟩ [] ⟨0, 0, 50, 50⟩
      (by norm_num) (by norm_num) (by norm_num) (by norm_num) (by norm_num)
      (by norm_num)).2 (by decide)).1

theorem readIFDWithFilter_byteOrder (file : List Nat) (bo : ByteOrder)
    (mo : Bool) (offset : Nat) (ifd : IFD)
    (h : readIFDWithFilter file bo mo offset = .ok ifd) : ifd.byteOrder = bo := by
  unfold readIFDWithFilter at h
  split_ifs at h <;>
    (simp only [Except.ok.injEq] at h; rw [← h])

theorem readIFDsWithFilter_ok (file : List Nat) (bo : ByteOrder) (mo : Bool) :
    ∀ (fuel offset : Nat) (ifds : List IFD),
      readIFDsWithFilter file bo mo fuel offset = .ok ifds →
      (∀ ifd ∈ ifds, ifd.byteOrder = bo) ∧ (offset ≠ 0 → ifds ≠ []) := by
  intro fuel
  induction fuel with
  | zero =>
      intro offset ifds h
      unfold readIFDsWithFilter at h
      split_ifs at h with h0
      obtain rfl := (Except.ok.inj h).symm
      exact ⟨by simp, fun hne => absurd h0 hne⟩
  | succ fuel ih =>
      intro offset ifds h
      unfold readIFDsWithFilter at h
      split_ifs at h with h0
      · obtain rfl := (Except.ok.inj h).symm
        exact ⟨by simp, fun hne => absurd h0 hne⟩
      · split at h
        · exact absurd h (by simp)
        · rename_i ifd hh
          split at h
          · exact absurd h (by simp)
          · rename_i rest hrest
            obtain rfl := (Except.ok.inj h).symm
            refine ⟨?_, fun _ => by simp⟩
            intro ifd' hmem
            rcases List.mem_cons.mp hmem with rfl | htail
            · exact readIFDWithFilter_byteOrder file bo mo offset ifd' hh
            · exact (ih ifd.nextIFD rest hrest).1 ifd' htail

theorem tiffAfterMagic_ok (file : List Nat) (mo : Bool) (fuel : Nat)
    (b bo : ByteOrder) (ifds : List IFD)
    (h : tiffAfterMagic file mo fuel b = .ok (bo, ifds)) :
    bo = b ∧ readIFDsWithFilter file b mo fuel (readUint32 b file 4) = .ok ifds := by
  unfold tiffAfterMagic at h
  split_ifs at h
  split at h
  · exact absurd h (by simp)
  · rename_i l hm
    have hp := Except.ok.inj h
    have h1 : b = bo := congrArg Prod.fst hp
    have h2 : l = ifds := congrArg Prod.snd hp
    subst h1
    subst h2
    exact ⟨rfl, hm⟩

theorem resolveTagMetadataOnly_largeDeferred (file : List Nat) (bo : ByteOrder)
    (off : Nat) (t : Tag) (hv : t.value = none)
    (h : isLargeArrayTag (resolveTagMetadataOnly file bo off t).id) :
    (resolveTagMetadataOnly file bo off t).value = none ∧
      (resolveTagMetadataOnly file bo off t).isOffset = true := by
  have hid : (resolveTagMetadataOnly file bo off t).id = t.id := by
    unfold resolveTagMetadataOnly
    dsimp only
    split_ifs <;> rfl
  rw [hid] at h
  unfold resolveTagMetadataOnly
  rw [if_pos h]
  exact ⟨hv, rfl⟩

theorem resolveTagFull_largeDeferred (file : List Nat) (bo : ByteOrder)
    (t : Tag) (hv : t.value = none)
    (h : isLargeArrayTag (resolveTagFull file bo t).id) :
    (resolveTagFull file bo t).value = none ∧
      (resolveTagFull file bo t).isOffset = true := by
  have hid : (resolveTagFull file bo t).id = t.id := by
    unfold resolveTagFull
    split_ifs <;> rfl
  rw [hid] at h
  unfold resolveTagFull
  rw [if_pos h]
  exact ⟨hv, rfl⟩

theorem readIFDWithFilter_largeArray (file : List Nat) (bo : ByteOrder)
    (mo : Bool) (offset : Nat) (ifd : IFD)
    (h : readIFDWithFilter file bo mo offset = .ok ifd) :
    ∀ t ∈ ifd.tags, isLargeArrayTag t.id → t.value = none ∧ t.isOffset = true := by
  unfold readIFDWithFilter at h
  split_ifs at h
  · simp only [Except.ok.injEq] at h
    intro t hmem hlarge
    rw [← h] at hmem
    dsimp only at hmem
    rw [List.mem_map] at hmem
    obtain ⟨t0, ht0, rfl⟩ := hmem
    have hv : t0.value = none := by
      rw [List.mem_map] at ht0
      obtain ⟨i, _, rfl⟩ := ht0
      rfl
    exact resolveTagMetadataOnly_largeDeferred file bo offset t0 hv hlarge
  · simp only [Except.ok.injEq] at h
    intro t hmem hlarge
    rw [← h] at hmem
    dsimp only at hmem
    rw [List.mem_map] at hmem
    obtain ⟨t0, ht0, rfl⟩ := hmem
    have hv : t0.value = none := by
      rw [List.mem_map] at ht0
      obtain ⟨i, _, rfl⟩ := ht0
      rfl
    exact resolveTagFull_largeDeferred file bo t0 hv hlarge

theorem readIFDsWithFilter_largeArray (file : List Nat) (bo : ByteOrder) (mo : Bool) :
    ∀ (fuel offset : Nat) (ifds : List IFD),
      readIFDsWithFilter file bo mo fuel offset = .ok ifds →
      ∀ ifd ∈ ifds, ∀ t ∈ ifd.tags, isLargeArrayTag t.id →
        t.value = none ∧ t.isOffset = true := by
  intro fuel
  induction fuel with
  | zero =>
      intro offset ifds h
      unfold readIFDsWithFilter at h
      split_ifs at h
      obtain rfl := (Except.ok.inj h).symm
      intro ifd hmem
      exact absurd hmem (by simp)
  | succ fuel ih =>
      intro offset ifds h
      unfold readIFDsWithFilter at h
      split_ifs at h
      · obtain rfl := (Except.ok.inj h).symm
        intro ifd hmem
        exact absurd hmem (by simp)
      · split at h
        · exact absurd h (by simp)
        · rename_i ifd hh
          split at h
          · exact absurd h (by simp)
          · rename_i rest hrest
            obtain rfl := (Except.ok.inj h).symm
            intro ifd' hmem
            rcases List.mem_cons.mp hmem with rfl | htail
            · exact readIFDWithFilter_largeArray file bo mo offset ifd' hh
            · exact ih ifd.nextIFD rest hrest ifd' htail

/-- C5: parsing fails when the first two header bytes are neither `II`
(0x49 0x49) nor `MM` (0x4D 0x4D), and when the 16-bit word that follows,
read in the selected byte order, is not 42; and every successful parse
satisfies: every parsed IFD's ByteOrder equals the byte order the header
selected, and (for a valid TIFF, whose first-IFD pointer is non-zero) at
least one IFD is produced. -/
theorem C5_header_parse :
    (∀ (file : List Nat) (mo : Bool) (fuel : Nat),
      file.getD 0 0 < 256 → file.getD 1 0 < 256 →
      ¬ (file.getD 0 0 = 73 ∧ file.getD 1 0 = 73) →
      ¬ (file.getD 0 0 = 77 ∧ file.getD 1 0 = 77) →
      ∃ e, NewTIFFReaderWithFilter file mo fuel = .error e) ∧
    (∀ (file : List Nat) (mo : Bool) (fuel : Nat),
      file.getD 0 0 = 73 → file.getD 1 0 = 73 → readUint16 .le file 2 ≠ 42 →
      ∃ e, NewTIFFReaderWithFilter file mo fuel = .error e) ∧
    (∀ (file : List Nat) (mo : Bool) (fuel : Nat),
      file.getD 0 0 = 77 → file.getD 1 0 = 77 → readUint16 .be file 2 ≠ 42 →
      ∃ e, NewTIFFReaderWithFilter file mo fuel = .error e) ∧
    (∀ (file : List Nat) (mo : Bool) (fuel : Nat) (bo : ByteOrder) (ifds : List IFD),
      NewTIFFReaderWithFilter file mo fuel = .ok (bo, ifds) →
      (∀ ifd ∈ ifds, ifd.byteOrder = bo) ∧
      (readUint32 bo file 4 ≠ 0 → ifds ≠ []) ∧
      ((file.getD 0 0 = 73 ∧ file.getD 1 0 = 73) → bo = .le) ∧
      ((file.getD 0 0 = 77 ∧ file.getD 1 0 = 77) → bo = .be)) := by
  have hmagicLE : ∀ file : List Nat, readUint16 .le file 0 = file.getD 0 0 + 256 * file.getD 1 0 :=
    fun file => rfl
  refine ⟨?_, ?_, ?_, ?_⟩
  · intro file mo fuel hb0 hb1 hno49 hno4D
    unfold NewTIFFReaderWithFilter
    rw [hmagicLE]
    split_ifs with h8 h49 h4D
    · exact ⟨_, rfl⟩
    · exact absurd (by omega : file.getD 0 0 = 73 ∧ file.getD 1 0 = 73) hno49
    · exact absurd (by omega : file.getD 0 0 = 77 ∧ file.getD 1 0 = 77) hno4D
    · exact ⟨_, rfl⟩
  · intro file mo fuel hb0 hb1 hver
    unfold NewTIFFReaderWithFilter
    by_cases h8 : file.length < 8
    · rw [if_pos h8]
      exact ⟨_, rfl⟩
    · rw [if_neg h8, hmagicLE, hb0, hb1, if_pos (by norm_num)]
      unfold tiffAfterMagic
      rw [if_pos hver]
      exact ⟨_, rfl⟩
  · intro file mo fuel hb0 hb1 hver
    unfold NewTIFFReaderWithFilter
    by_cases h8 : file.length < 8
    · rw [if_pos h8]
      exact ⟨_, rfl⟩
    · rw [if_neg h8, hmagicLE, hb0, hb1, if_neg (by norm_num), if_pos (by norm_num)]
      unfold tiffAfterMagic
      rw [if_pos hver]
      exact ⟨_, rfl⟩
  · intro file mo fuel bo ifds h
    unfold NewTIFFReaderWithFilter at h
    rw [hmagicLE] at h
    split_ifs at h with h8 h49 h4D
    · obtain ⟨rfl, hifds⟩ := tiffAfterMagic_ok file mo fuel .le bo ifds h
      have hout := readIFDsWithFilter_ok file .le mo fuel (readUint32 .le file 4) ifds hifds
      exact ⟨hout.1, hout.2, fun _ => rfl, fun h77 => by omega⟩
    · obtain ⟨rfl, hifds⟩ := tiffAfterMagic_ok file mo fuel .be bo ifds h
      have hout := readIFDsWithFilter_ok file .be mo fuel (readUint32 .be file 4) ifds hifds
      exact ⟨hout.1, hout.2, fun h73 => by omega, fun _ => rfl⟩

/-- C5 witness: the 26-byte minimal little-endian TIFF (scenario S1)
parses to one IFD whose byte order is little endian. -/
theorem C5_witness :
    (∀ ifd ∈ ([⟨[⟨256, 4, 1, 100, some (.u32 100), false⟩], 0, .le⟩] : List IFD),
      ifd.byteOrder = ByteOrder.le) ∧
    ([⟨[⟨256, 4, 1, 100, some (.u32 100), false⟩], 0, .le⟩] : List IFD) ≠ [] := by
  have h := C5_header_parse.2.2.2
    [73, 73, 42, 0, 8, 0, 0, 0, 1, 0, 0, 1, 4, 0, 1, 0, 0, 0, 100, 0, 0, 0, 0, 0, 0, 0]
    true 2 ByteOrder.le [⟨[⟨256, 4, 1, 100, some (.u32 100), false⟩], 0, .le⟩] rfl
  exact ⟨h.1, h.2.1 (by decide)⟩

/-- C4: after an open in either resolution mode, each of the four
large-array tags (StripOffsets 273, StripByteCounts 279, TileOffsets 324,
TileByteCounts 325) is only marked deferred - its value stays nil and
IsOffset becomes true - independently of the file bytes (the arrays are
never read); the pixel-read path materializes such a tag through
ReadTagValue exactly when its value is still nil and it is deferred; a tag
whose value is set is returned untouched by both ReadTagValue and the
lazy-load guard (the value transitions from empty to set at most once);
materializing a nil-valued SHORT or LONG tag sets its value; and
end-to-end, after every successful `NewTIFFReaderWithFilter` open (in
either mode), every tag of every parsed IFD whose id is one of the four
large-array tags has a nil value and IsOffset true. -/
theorem C4_lazy_large_arrays :
    (∀ (file : List Nat) (bo : ByteOrder) (ifdOffset : Nat) (t : Tag),
      isLargeArrayTag t.id →
      resolveTagMetadataOnly file bo ifdOffset t = { t with isOffset := true }) ∧
    (∀ (file : List Nat) (bo : ByteOrder) (t : Tag),
      isLargeArrayTag t.id →
      resolveTagFull file bo t = { t with isOffset := true }) ∧
    (∀ (file : List Nat) (bo : ByteOrder) (t : Tag) (v : TagValue),
      t.value = some v → ReadTagValue file bo t = t) ∧
    (∀ (file : List Nat) (bo : ByteOrder) (t : Tag),
      t.value = none → t.isOffset = true →
      lazyLoadTag file bo t = ReadTagValue file bo t) ∧
    (∀ (file : List Nat) (bo : ByteOrder) (t : Tag) (v : TagValue),
      t.value = some v → lazyLoadTag file bo t = t) ∧
    (∀ (file : List Nat) (bo : ByteOrder) (t : Tag),
      t.value = none → t.typ = 3 ∨ t.typ = 4 →
      (ReadTagValue file bo t).value ≠ none) ∧
    (∀ (file : List Nat) (mo : Bool) (fuel : Nat) (bo : ByteOrder) (ifds : List IFD),
      NewTIFFReaderWithFilter file mo fuel = .ok (bo, ifds) →
      ∀ ifd ∈ ifds, ∀ t ∈ ifd.tags, isLargeArrayTag t.id →
        t.value = none ∧ t.isOffset = true) := by
  refine ⟨?_, ?_, ?_, ?_, ?_, ?_, ?_⟩
  · intro file bo ifdOffset t ht
    unfold resolveTagMetadataOnly
    rw [if_pos ht]
  · intro file bo t ht
    unfold resolveTagFull
    rw [if_pos ht]
  · intro file bo t v hv
    unfold ReadTagValue
    rw [if_pos (by simp [hv])]
  · intro file bo t hv hoff
    unfold lazyLoadTag
    rw [if_pos ⟨hv, hoff⟩]
  · intro file bo t v hv
    unfold lazyLoadTag
    rw [if_neg (by simp [hv])]
  · intro file bo t hv htyp
    unfold ReadTagValue
    rw [if_neg (by simp [hv])]
    split_ifs with hsz
    · simp
    · simp only [readValueAtOffset]
      rcases htyp with h3 | h4
      · simp only [decodeTagValueFromBytes, h3]
        norm_num
        split_ifs <;> simp
      · simp only [decodeTagValueFromBytes, h4]
        norm_num
        split_ifs <;> simp
  · intro file mo fuel bo ifds h
    unfold NewTIFFReaderWithFilter at h
    split_ifs at h
    · exact readIFDsWithFilter_largeArray file .le mo fuel _ ifds
        (tiffAfterMagic_ok file mo fuel .le bo ifds h).2
    · exact readIFDsWithFilter_largeArray file .be mo fuel _ ifds
        (tiffAfterMagic_ok file mo fuel .be bo ifds h).2

/-- C4 witness: ReadTagValue leaves a TileOffsets tag whose value is
already set untouched. -/
theorem C4_witness :
    ReadTagValue [] ByteOrder.le ⟨324, 4, 1, 8, some (.u32 8), true⟩ =
      ⟨324, 4, 1, 8, some (.u32 8), true⟩ :=
  C4_lazy_large_arrays.2.2.1 [] ByteOrder.le ⟨324, 4, 1, 8, some (.u32 8), true⟩
    (.u32 8) rfl

theorem getD_map_lt {α β : Type} {l : List α} {f : α → β} {i : Nat}
    (h : i < l.length) (d : α) (d' : β) :
    (l.map f).getD i d' = f (l.getD i d) := by
  rw [List.getD_eq_getElem _ _ (by simpa using h), List.getD_eq_getElem _ _ h,
    List.getElem_map]

theorem readRegionCore_crs_irrelevant (m : GeoTIFFMetadata) (c : String)
    (f : Int → Int → Int → Int → Except String (List Nat))
    (bo : Option ByteOrder) (bound : Bound) :
    readRegionCore { m with crs := c } f bo bound = readRegionCore m f bo bound := rfl

/-- C7: `ReadTile` fails with the unsupported-CRS error for every CRS
string other than exactly "EPSG:4326" or "EPSG:3857" (the empty string
included), and its result is then independent of the continuation holding
the pixel-reading remainder (no pixel data is read); `ReadRegion` imposes
no CRS restriction: its result is unchanged under any rewriting of the
CRS strings of the metadata. -/
theorem C7_crs_validation :
    (∀ (geoCount : Nat) (crs : String) (tileSize : List Int)
        (rest rest' : Int → Except String (RasterData × Bound)),
      geoCount ≠ 0 → crs ≠ "EPSG:4326" → crs ≠ "EPSG:3857" →
      ReadTile geoCount crs tileSize rest = .error "unsupported CRS" ∧
      ReadTile geoCount crs tileSize rest = ReadTile geoCount crs tileSize rest') ∧
    (∀ (metas : List GeoTIFFMetadata) (newCrs : String → String)
        (readPixelRegion : Nat → Int → Int → Int → Int → Except String (List Nat))
        (ifdByteOrder : Nat → Option ByteOrder) (bound : Bound) (overview : Int),
      ReadRegion (metas.map fun m => { m with crs := newCrs m.crs })
          readPixelRegion ifdByteOrder bound overview =
        ReadRegion metas readPixelRegion ifdByteOrder bound overview) := by
  constructor
  · intro geoCount crs tileSize rest rest' hgc h4326 h3857
    have hred : ∀ r, ReadTile geoCount crs tileSize r = .error "unsupported CRS" := by
      intro r
      unfold ReadTile
      rw [if_neg hgc, if_pos ⟨h4326, h3857⟩]
    exact ⟨hred rest, (hred rest).trans (hred rest').symm⟩
  · intro metas newCrs readPixelRegion ifdByteOrder bound overview
    unfold ReadRegion
    simp only [List.length_map]
    split_ifs with h0 hov
    · rfl
    · rfl
    · have hlt : overview.toNat < metas.length := by
        push_neg at hov
        omega
      rw [getD_map_lt hlt dummyGeoTIFFMetadata dummyGeoTIFFMetadata,
        readRegionCore_crs_irrelevant]

/-- C7 witness: an image whose CRS is the empty string is rejected by the
tile path regardless of the continuation. -/
theorem C7_witness :
    ReadTile 1 "" [] (fun _ => .error "tile read attempted") =
      .error "unsupported CRS" :=
  (C7_crs_validation.1 1 "" [] (fun _ => .error "tile read attempted")
    (fun _ => .error "other") (by decide) (by decide) (by decide)).1

end Gocog

